import Mathlib

/-!
Verification of the core of `claws` (src/main.rs): the rate-bounded,
cursor-paginated log-stream fetch `logs_recent_streams` and the batch
executor `for_each`.

The paged source (CloudWatch `describe_log_streams`) is modelled as a
function from the request's cursor and per-call item cap to an optional
response; `none` stands for a failed request (transport/API error).  The
fetch is embedded as a function that returns the trace of outward-visible
events (page requests and 1-second sleeps), the list of stream names
printed, and an optional error, mirroring the Rust control flow line by
line: `remaining` starts at the caller's limit (cast from usize to i64,
hence `Int`), each request asks for `min remaining 50` items, the loop
returns when the response carries no continuation token or when the
budget, decremented by the requested limit, reaches zero, and after every
five requests in a window one sleep is emitted before the next request.
-/

namespace Claws

/-- One log stream of a response; the name field is optional, as in
`rusoto_logs::LogStream`. -/
structure LogStream where
  log_stream_name : Option String
deriving Repr, DecidableEq

/-- A `describe_log_streams` response: an optional list of streams and an
optional continuation token (cursors are modelled as `Nat`). -/
structure DescribeResponse where
  log_streams : Option (List LogStream)
  next_token : Option Nat
deriving Repr, DecidableEq

/-- Errors surfaced by the fetch: a failed page request, or a response
item lacking the stream-name field. -/
inductive FetchErr where
  | requestFailed
  | missingName
deriving Repr, DecidableEq

/-- Outward-visible events of a fetch run: a page request (with the
cursor and the per-call cap it sends) or a 1-second sleep. -/
inductive Event where
  | request (next_token : Option Nat) (limit : Int)
  | sleep
deriving Repr, DecidableEq

/-- The body of the per-page loop: print each stream's name in order;
abort with `missingName` at the first stream whose name field is absent
(`log_stream.log_stream_name.ok_or_else(...)?`). -/
def streamNames : List LogStream → List String × Option FetchErr
  | [] => ([], none)
  | s :: rest =>
    match s.log_stream_name with
    | none => ([], some FetchErr.missingName)
    | some name =>
      let p := streamNames rest
      (name :: p.1, p.2)

/-- Processing of one response's item list: an absent `log_streams` field
is skipped (the `if let Some(log_streams)` in the source), a present one
is printed by `streamNames`. -/
def pageNames (resp : DescribeResponse) : List String × Option FetchErr :=
  match resp.log_streams with
  | none => ([], none)
  | some streams => streamNames streams

/-- Shallow embedding of `logs_recent_streams` from src/main.rs.
`src` is the paged-list collaborator (`none` = failed request),
`next_token` the current cursor, `remaining` the item budget (i64),
`window` the number of requests already issued in the current 5-request
rate window.  Returns the event trace, the printed names, and the error
if any.  The entry point of the Rust function is
`logs_recent_streams src none (limit : Int) 0`. -/
def logs_recent_streams (src : Option Nat → Int → Option DescribeResponse)
    (next_token : Option Nat) (remaining : Int) (window : Nat) :
    List Event × List String × Option FetchErr :=
  match src next_token (min remaining 50) with
  | none => ([Event.request next_token (min remaining 50)], [],
      some FetchErr.requestFailed)
  | some resp =>
    match pageNames resp with
    | (names, some e) =>
      ([Event.request next_token (min remaining 50)], names, some e)
    | (names, none) =>
      if resp.next_token = none then
        ([Event.request next_token (min remaining 50)], names, none)
      else if hrem : remaining - min remaining 50 ≤ 0 then
        ([Event.request next_token (min remaining 50)], names, none)
      else
        let rest := logs_recent_streams src resp.next_token
          (remaining - min remaining 50)
          (if window + 1 = 5 then 0 else window + 1)
        (Event.request next_token (min remaining 50) ::
          ((if window + 1 = 5 then [Event.sleep] else []) ++ rest.1),
         names ++ rest.2.1, rest.2.2)
termination_by remaining.toNat
decreasing_by
  rcases min_cases remaining (50 : Int) with ⟨heq, hle⟩ | ⟨heq, hlt⟩ <;>
    rw [heq] at hrem ⊢ <;> omega

/-- A stream whose name field is present. -/
def mkStream (name : String) : LogStream := ⟨some name⟩

/-- The canonical full-page paginated source over a fixed item list:
a cursor is a position (absent cursor = position 0), a request for `m`
items from position `p` returns items `p, ..., p+m-1` and a continuation
token exactly when items remain beyond them.  Every page is full (exactly
the requested count) until the list is exhausted. -/
def canonicalSrc (items : List String) :
    Option Nat → Int → Option DescribeResponse :=
  fun cursor limit =>
    let p := cursor.getD 0
    let m := limit.toNat
    some ⟨some (((items.drop p).take m).map mkStream),
          if p + m < items.length then some (p + m) else none⟩

/-- Whether an event is a page request. -/
def isRequest : Event → Bool
  | Event.request _ _ => true
  | Event.sleep => false

/-- Number of page requests in an event trace. -/
def numRequests (t : List Event) : Nat := t.countP isRequest

/-- Sum of the per-request caps of the requests in a trace: the budget
consumed by those requests, since the loop decrements `remaining` by
exactly the requested limit. -/
def sumLimits : List Event → Int
  | [] => 0
  | Event.request _ l :: rest => l + sumLimits rest
  | Event.sleep :: rest => sumLimits rest

/-- Rate-discipline check over an event trace, with `b` the number of
requests still allowed in the current 1-second window.  A request needs
`b > 0`; a sleep is allowed exactly when the window is exhausted
(`b = 0`), must be followed by at least one more event, and reopens a
window of 5.  Thus `rateOK 5 t` holds iff at most 5 requests occur
between consecutive sleeps (and before the first and after the last),
and after every 5th request exactly one sleep precedes the 6th. -/
def rateOK : Nat → List Event → Bool
  | _, [] => true
  | b, Event.sleep :: rest => b == 0 && !rest.isEmpty && rateOK 5 rest
  | 0, Event.request _ _ :: _ => false
  | b + 1, Event.request _ _ :: rest => rateOK b rest

/-- Replace an absent item-list field of every response of a source by an
explicit empty page, keeping everything else. -/
def normalizeSrc (src : Option Nat → Int → Option DescribeResponse) :
    Option Nat → Int → Option DescribeResponse :=
  fun cursor limit =>
    (src cursor limit).map fun resp =>
      ⟨some (resp.log_streams.getD []), resp.next_token⟩

/-- A conforming source holding unboundedly many items that returns one
item per page (fewer than the requested cap) and always a continuation
token. -/
def shortPageSrc : Option Nat → Int → Option DescribeResponse :=
  fun cursor _ =>
    some ⟨some [mkStream "s"], some (cursor.getD 0 + 1)⟩

/-- A conforming source holding exactly two items, "t0" and "t1", served
one per page: the first page carries a continuation token, the second
does not. -/
def twoItemShortSrc : Option Nat → Int → Option DescribeResponse :=
  fun cursor _ =>
    match cursor with
    | none => some ⟨some [mkStream "t0"], some 1⟩
    | some _ => some ⟨some [mkStream "t1"], none⟩

/-- A source whose first page returns the given named streams with a
continuation token, and whose second request fails. -/
def failSecondSrc (ns : List String) :
    Option Nat → Int → Option DescribeResponse :=
  fun cursor _ =>
    match cursor with
    | none => some ⟨some (ns.map mkStream), some 1⟩
    | some _ => none

/-- A source whose first page returns the given named streams with a
continuation token, and whose second page contains one stream lacking
the name field. -/
def badNameSecondSrc (ns : List String) :
    Option Nat → Int → Option DescribeResponse :=
  fun cursor _ =>
    match cursor with
    | none => some ⟨some (ns.map mkStream), some 1⟩
    | some _ => some ⟨some [⟨none⟩], some 2⟩

/-- Shallow embedding of the loop body of `for_each` from src/main.rs:
walks the ids in order, applies `func` to each, records the id of every
invocation and the message of every error, and returns whether any
invocation failed.  Result: (invoked ids, error messages, any_errors). -/
def for_each_go (func : String → Except String Unit) :
    List String → List String × List String × Bool
  | [] => ([], [], false)
  | id :: rest =>
    let r := for_each_go func rest
    match func id with
    | Except.ok _ => (id :: r.1, r.2.1, r.2.2)
    | Except.error e => (id :: r.1, e :: r.2.1, true)

/-- Shallow embedding of `for_each` from src/main.rs: run every action,
then throw `anyhow!("one or more operations failed")` iff any action
failed.  Result: (invoked ids, surfaced error messages, aggregate
outcome, `none` = success). -/
def for_each (func : String → Except String Unit) (ids : List String) :
    List String × List String × Option String :=
  let r := for_each_go func ids
  (r.1, r.2.1, if r.2.2 then some "one or more operations failed" else none)

/-- Printing a list of streams that all carry names yields exactly those
names and no error. -/
theorem streamNames_map_mkStream (ns : List String) :
    streamNames (ns.map mkStream) = (ns, none) := by
  induction ns with
  | nil => rfl
  | cons n rest ih => simp [streamNames, mkStream, ih]

/-- The only error `streamNames` produces is `missingName`. -/
theorem streamNames_err_eq (l : List LogStream) (e : FetchErr)
    (h : (streamNames l).2 = some e) : e = FetchErr.missingName := by
  induction l with
  | nil => simp [streamNames] at h
  | cons s rest ih =>
    rcases s with ⟨_ | name⟩
    · simp [streamNames] at h
      exact h.symm
    · rw [streamNames] at h
      simp at h
      exact ih h

/-- Every run of the fetch issues at least one event (the first page
request). -/
theorem trace_ne_nil (src : Option Nat → Int → Option DescribeResponse)
    (c : Option Nat) (r : Int) (k : Nat) :
    (logs_recent_streams src c r k).1 ≠ [] := by
  rw [logs_recent_streams]
  repeat' split
  all_goals simp

/-- Rate-discipline invariant: a run started with `k ≤ 4` requests already
issued in the current window has a trace accepted by `rateOK` with
`5 - k` requests left in the window. -/
theorem rateOK_go (src : Option Nat → Int → Option DescribeResponse)
    (c : Option Nat) (r : Int) (k : Nat) (hk : k ≤ 4) :
    rateOK (5 - k) (logs_recent_streams src c r k).1 = true := by
  obtain ⟨b, hb⟩ : ∃ b, 5 - k = b + 1 := ⟨4 - k, by omega⟩
  rw [logs_recent_streams]
  rcases hsrc : src c (min r 50) with _ | resp <;> simp only [hsrc]
  · rw [hb]; simp [rateOK]
  · rcases hpn : pageNames resp with ⟨names, oe⟩
    rcases oe with _ | e <;> simp only [hpn]
    case some => rw [hb]; simp [rateOK]
    case none =>
      by_cases hnt : resp.next_token = none
      · simp only [if_pos hnt]
        rw [hb]; simp [rateOK]
      · simp only [if_neg hnt]
        by_cases hrem : r - min r 50 ≤ 0
        · rw [dif_pos hrem]
          rw [hb]; simp [rateOK]
        · rw [dif_neg hrem]
          by_cases hk5 : k + 1 = 5
          · simp only [if_pos hk5]
            rw [hb]
            have hb0 : b = 0 := by omega
            simp only [List.singleton_append, rateOK, hb0]
            have hne := trace_ne_nil src resp.next_token (r - min r 50) 0
            have ih := rateOK_go src resp.next_token (r - min r 50) 0 (by omega)
            rcases hevs : (logs_recent_streams src resp.next_token
                (r - min r 50) 0).1 with _ | ⟨e0, evs⟩
            · exact absurd hevs hne
            · rw [hevs] at ih
              simp [rateOK, ih]
          · simp only [if_neg hk5]
            rw [hb]
            have ih := rateOK_go src resp.next_token (r - min r 50) (k + 1)
              (by omega)
            have hbk : 5 - (k + 1) = b := by omega
            rw [hbk] at ih
            simpa [rateOK] using ih
termination_by r.toNat
decreasing_by
  all_goals
    rcases min_cases r (50 : Int) with ⟨heq, h1⟩ | ⟨heq, h1⟩ <;>
      rw [heq] at hrem ⊢ <;> omega

/-- The fetch issues at most `remaining.toNat + 1` page requests: each
continued iteration strictly decreases the positive budget. -/
theorem numRequests_le_go (src : Option Nat → Int → Option DescribeResponse)
    (c : Option Nat) (r : Int) (k : Nat) :
    numRequests (logs_recent_streams src c r k).1 ≤ r.toNat + 1 := by
  rw [logs_recent_streams]
  rcases hsrc : src c (min r 50) with _ | resp <;> simp only [hsrc]
  · simp [numRequests, List.countP, List.countP.go, isRequest]
  · rcases hpn : pageNames resp with ⟨names, oe⟩
    rcases oe with _ | e <;> simp only [hpn]
    case some => simp [numRequests, List.countP, List.countP.go, isRequest]
    case none =>
      by_cases hnt : resp.next_token = none
      · simp only [if_pos hnt]
        simp [numRequests, List.countP, List.countP.go, isRequest]
      · simp only [if_neg hnt]
        by_cases hrem : r - min r 50 ≤ 0
        · rw [dif_pos hrem]
          simp [numRequests, List.countP, List.countP.go, isRequest]
        · rw [dif_neg hrem]
          have hlt : (r - min r 50).toNat < r.toNat := by
            rcases min_cases r (50 : Int) with ⟨heq, h1⟩ | ⟨heq, h1⟩ <;>
              rw [heq] at hrem ⊢ <;> omega
          by_cases hk5 : k + 1 = 5 <;>
            simp only [if_pos, if_neg, hk5, if_true, if_false]
          · have ih := numRequests_le_go src resp.next_token (r - min r 50) 0
            simp only [numRequests, List.countP_cons, List.countP_append,
              List.countP_nil, isRequest] at ih ⊢
            simp at ih ⊢
            omega
          · have ih := numRequests_le_go src resp.next_token (r - min r 50)
              (k + 1)
            simp only [numRequests, List.countP_cons, List.countP_append,
              List.countP_nil, isRequest] at ih ⊢
            simp at ih ⊢
            omega
termination_by r.toNat
decreasing_by
  all_goals
    rcases min_cases r (50 : Int) with ⟨heq, h1⟩ | ⟨heq, h1⟩ <;>
      rw [heq] at hrem ⊢ <;> omega

/-- Responses with an absent item-list field are processed exactly like
responses with an explicit empty page: normalizing every response of the
source does not change the fetch's trace, output or result. -/
theorem normalize_eq_go (src : Option Nat → Int → Option DescribeResponse)
    (c : Option Nat) (r : Int) (k : Nat) :
    logs_recent_streams src c r k =
      logs_recent_streams (normalizeSrc src) c r k := by
  rw [logs_recent_streams, logs_recent_streams]
  rcases hsrc : src c (min r 50) with _ | resp <;>
    simp only [normalizeSrc, hsrc, Option.map]
  have hpn : pageNames ⟨some (resp.log_streams.getD []), resp.next_token⟩ =
      pageNames resp := by
    rcases hls : resp.log_streams with _ | streams <;>
      simp [pageNames, hls, streamNames]
  rw [hpn]
  rcases hp : pageNames resp with ⟨names, oe⟩
  rcases oe with _ | e <;> simp only [hp]
  by_cases hnt : resp.next_token = none
  · simp only [if_pos hnt]
  · simp only [if_neg hnt]
    by_cases hrem : r - min r 50 ≤ 0
    · rw [dif_pos hrem, dif_pos hrem]
    · rw [dif_neg hrem, dif_neg hrem]
      rw [← normalize_eq_go src resp.next_token (r - min r 50)
        (if k + 1 = 5 then 0 else k + 1)]
termination_by r.toNat
decreasing_by
  all_goals
    rcases min_cases r (50 : Int) with ⟨heq, h1⟩ | ⟨heq, h1⟩ <;>
      rw [heq] at hrem ⊢ <;> omega

/-- Canonical source holding more items than the budget: starting at
position `p` with budget `r`, `p + r` strictly inside the list, the fetch
prints exactly the next `r` items, succeeds, and issues exactly
`⌈r / 50⌉` page requests. -/
theorem canonical_over_go (items : List String) (r p k : Nat) (c : Option Nat)
    (hc : c.getD 0 = p) (hr : 0 < r) (hlen : p + r < items.length) :
    (logs_recent_streams (canonicalSrc items) c (r : Int) k).2.1 =
        (items.drop p).take r ∧
      (logs_recent_streams (canonicalSrc items) c (r : Int) k).2.2 = none ∧
      numRequests (logs_recent_streams (canonicalSrc items) c (r : Int) k).1 =
        (r + 49) / 50 := by
  rcases le_or_lt r 50 with h50 | h50
  · have hmin : min ((r : Nat) : Int) 50 = ((r : Nat) : Int) := by omega
    rw [logs_recent_streams, hmin]
    simp only [canonicalSrc, hc]
    have hm : ((r : Nat) : Int).toNat = r := by omega
    simp only [hm, if_pos hlen]
    simp only [pageNames, streamNames_map_mkStream]
    have hne : ¬ (some (p + r) = (none : Option Nat)) := by simp
    simp only [if_neg hne]
    rw [dif_pos (show ((r : Nat) : Int) - ((r : Nat) : Int) ≤ 0 by omega)]
    refine ⟨rfl, rfl, ?_⟩
    simp only [numRequests, List.countP_cons, List.countP_nil, isRequest]
    simp
    omega
  · have hmin : min ((r : Nat) : Int) 50 = (50 : Int) := by omega
    rw [logs_recent_streams, hmin]
    simp only [canonicalSrc, hc]
    have hm : ((50 : Int)).toNat = 50 := by omega
    simp only [hm]
    have hcur : p + 50 < items.length := by omega
    simp only [if_pos hcur]
    simp only [pageNames, streamNames_map_mkStream]
    have hne : ¬ (some (p + 50) = (none : Option Nat)) := by simp
    simp only [if_neg hne]
    rw [dif_neg (show ¬ ((r : Nat) : Int) - 50 ≤ 0 by omega)]
    have hcast : ((r : Nat) : Int) - 50 = ((r - 50 : Nat) : Int) := by omega
    rw [hcast]
    have ih := canonical_over_go items (r - 50) (p + 50)
      (if k + 1 = 5 then 0 else k + 1) (some (p + 50)) rfl (by omega) (by omega)
    refine ⟨?_, ?_, ?_⟩
    · show List.take 50 (items.drop p) ++ _ = _
      rw [ih.1]
      conv_rhs => rw [show r = 50 + (r - 50) from by omega]
      rw [List.take_add, List.drop_drop]
    · exact ih.2.1
    · have hcount := ih.2.2
      simp only [numRequests] at hcount ⊢
      by_cases hk5 : k + 1 = 5
      · simp only [if_pos hk5] at hcount ⊢
        simp only [List.countP_cons, List.countP_append, List.countP_nil,
          isRequest]
        norm_num
        omega
      · simp only [if_neg hk5] at hcount ⊢
        simp only [List.countP_cons, List.countP_append, List.countP_nil,
          isRequest]
        norm_num
        omega
termination_by r
decreasing_by omega
/-- Canonical source holding fewer items than the budget: starting at
position `p` with budget `r` exceeding what is left, the fetch prints
every remaining item, succeeds, and stops at the first cursorless page,
after `max 1 ⌈(length - p) / 50⌉` page requests. -/
theorem canonical_under_go (items : List String) (r p k : Nat) (c : Option Nat)
    (hc : c.getD 0 = p) (hr : 0 < r) (hp : p ≤ items.length)
    (hlen : items.length < p + r) :
    (logs_recent_streams (canonicalSrc items) c (r : Int) k).2.1 =
        items.drop p ∧
      (logs_recent_streams (canonicalSrc items) c (r : Int) k).2.2 = none ∧
      numRequests (logs_recent_streams (canonicalSrc items) c (r : Int) k).1 =
        max 1 ((items.length - p + 49) / 50) := by
  rcases le_or_lt r 50 with h50 | h50
  · have hmin : min ((r : Nat) : Int) 50 = ((r : Nat) : Int) := by omega
    rw [logs_recent_streams, hmin]
    simp only [canonicalSrc, hc]
    have hm : ((r : Nat) : Int).toNat = r := by omega
    have hcur : ¬ (p + r < items.length) := by omega
    simp only [hm, if_neg hcur]
    simp only [pageNames, streamNames_map_mkStream]
    refine ⟨?_, rfl, ?_⟩
    · show List.take r (items.drop p) = items.drop p
      apply List.take_of_length_le
      simp only [List.length_drop]
      omega
    · simp [numRequests, List.countP, List.countP.go, isRequest]
      omega
  · have hmin : min ((r : Nat) : Int) 50 = (50 : Int) := by omega
    rw [logs_recent_streams, hmin]
    simp only [canonicalSrc, hc]
    have hm : ((50 : Int)).toNat = 50 := by omega
    simp only [hm]
    by_cases hcur : p + 50 < items.length
    · simp only [if_pos hcur]
      simp only [pageNames, streamNames_map_mkStream]
      have hne : ¬ (some (p + 50) = (none : Option Nat)) := by simp
      simp only [if_neg hne]
      rw [dif_neg (show ¬ ((r : Nat) : Int) - 50 ≤ 0 by omega)]
      have hcast : ((r : Nat) : Int) - 50 = ((r - 50 : Nat) : Int) := by omega
      rw [hcast]
      have ih := canonical_under_go items (r - 50) (p + 50)
        (if k + 1 = 5 then 0 else k + 1) (some (p + 50)) rfl (by omega)
        (by omega) (by omega)
      refine ⟨?_, ?_, ?_⟩
      · show List.take 50 (items.drop p) ++ _ = _
        rw [ih.1]
        rw [show p + 50 = p + 50 from rfl, ← List.drop_drop,
          List.take_append_drop]
      · exact ih.2.1
      · have hcount := ih.2.2
        simp only [numRequests] at hcount ⊢
        by_cases hk5 : k + 1 = 5
        · simp only [if_pos hk5] at hcount ⊢
          simp only [List.countP_cons, List.countP_append, List.countP_nil,
            isRequest]
          norm_num
          omega
        · simp only [if_neg hk5] at hcount ⊢
          simp only [List.countP_cons, List.countP_append, List.countP_nil,
            isRequest]
          norm_num
          omega
    · simp only [if_neg hcur]
      simp only [pageNames, streamNames_map_mkStream]
      refine ⟨?_, rfl, ?_⟩
      · show List.take 50 (items.drop p) = items.drop p
        apply List.take_of_length_le
        simp only [List.length_drop]
        omega
      · simp [numRequests, List.countP, List.countP.go, isRequest]
        omega
termination_by r
decreasing_by omega

/-- Per-request cap characterization: if the trace of a run splits as
`pre ++ request tok l :: post`, then `l` is exactly
`min (budget still remaining at that request) 50`, where the budget
remaining is the initial budget minus the caps of the earlier requests
(the loop decrements `remaining` by exactly each requested cap). -/
theorem limit_char_go (src : Option Nat → Int → Option DescribeResponse)
    (c : Option Nat) (r : Int) (k : Nat) (pre : List Event) (tok : Option Nat)
    (l : Int) (post : List Event)
    (h : (logs_recent_streams src c r k).1 = pre ++ Event.request tok l :: post) :
    l = min (r - sumLimits pre) 50 := by
  rw [logs_recent_streams] at h
  rcases hsrc : src c (min r 50) with _ | resp <;> simp only [hsrc] at h
  · rcases pre with _ | ⟨e0, pre1⟩
    · simp only [List.nil_append, List.cons.injEq, Event.request.injEq] at h
      simp [sumLimits]
      omega
    · simp only [List.cons_append, List.cons.injEq] at h
      exact absurd h.2 (by simp)
  · rcases hpn : pageNames resp with ⟨names, oe⟩
    rcases oe with _ | e <;> simp only [hpn] at h
    case some =>
      rcases pre with _ | ⟨e0, pre1⟩
      · simp only [List.nil_append, List.cons.injEq, Event.request.injEq] at h
        simp [sumLimits]
        omega
      · simp only [List.cons_append, List.cons.injEq] at h
        exact absurd h.2 (by simp)
    case none =>
      by_cases hnt : resp.next_token = none
      · simp only [if_pos hnt] at h
        rcases pre with _ | ⟨e0, pre1⟩
        · simp only [List.nil_append, List.cons.injEq, Event.request.injEq] at h
          simp [sumLimits]
          omega
        · simp only [List.cons_append, List.cons.injEq] at h
          exact absurd h.2 (by simp)
      · simp only [if_neg hnt] at h
        by_cases hrem : r - min r 50 ≤ 0
        · rw [dif_pos hrem] at h
          rcases pre with _ | ⟨e0, pre1⟩
          · simp only [List.nil_append, List.cons.injEq,
              Event.request.injEq] at h
            simp [sumLimits]
            omega
          · simp only [List.cons_append, List.cons.injEq] at h
            exact absurd h.2 (by simp)
        · rw [dif_neg hrem] at h
          rcases pre with _ | ⟨e0, pre1⟩
          · simp only [List.nil_append, List.cons.injEq,
              Event.request.injEq] at h
            simp [sumLimits]
            omega
          · simp only [List.cons_append, List.cons.injEq] at h
            obtain ⟨he0, h⟩ := h
            by_cases hk5 : k + 1 = 5
            · simp only [if_pos hk5, List.singleton_append] at h
              rcases pre1 with _ | ⟨e1, pre2⟩
              · simp only [List.nil_append, List.cons.injEq] at h
                exact absurd h.1.symm (by simp)
              · simp only [List.cons_append, List.cons.injEq] at h
                obtain ⟨he1, h⟩ := h
                have ih := limit_char_go src resp.next_token (r - min r 50)
                  0 pre2 tok l post h
                rw [ih, ← he0, ← he1]
                simp [sumLimits]
                omega
            · simp only [if_neg hk5, List.nil_append] at h
              have ih := limit_char_go src resp.next_token (r - min r 50)
                (k + 1) pre1 tok l post h
              rw [ih, ← he0]
              simp [sumLimits]
              omega
termination_by r.toNat
decreasing_by
  all_goals
    rcases min_cases r (50 : Int) with ⟨heq, h1⟩ | ⟨heq, h1⟩ <;>
      rw [heq] at hrem ⊢ <;> omega

/-- An error run ends at the failing request: when the fetch returns an
error, its trace is `pre ++ [request tok l]` — no request follows the
failing one — and the final request is the failure: a `none` response for
`requestFailed`, a page containing a nameless stream for `missingName`. -/
theorem error_last_go (src : Option Nat → Int → Option DescribeResponse)
    (c : Option Nat) (r : Int) (k : Nat) (e : FetchErr)
    (h : (logs_recent_streams src c r k).2.2 = some e) :
    ∃ pre tok l,
      (logs_recent_streams src c r k).1 = pre ++ [Event.request tok l] ∧
      (e = FetchErr.requestFailed → src tok l = none) ∧
      (e = FetchErr.missingName → ∃ resp streams, src tok l = some resp ∧
        resp.log_streams = some streams ∧
        (streamNames streams).2 = some FetchErr.missingName) := by
  rw [logs_recent_streams] at h ⊢
  rcases hsrc : src c (min r 50) with _ | resp <;> simp only [hsrc] at h ⊢
  · refine ⟨[], c, min r 50, by simp, fun _ => hsrc, fun hmn => ?_⟩
    simp at h
    rw [← h] at hmn
    exact absurd hmn (by simp)
  · rcases hpn : pageNames resp with ⟨names, oe⟩
    rcases oe with _ | e1 <;> simp only [hpn] at h ⊢
    case some =>
      simp at h
      have he1 : e1 = FetchErr.missingName := by
        rcases hls : resp.log_streams with _ | streams
        · simp [pageNames, hls] at hpn
        · apply streamNames_err_eq streams
          simp [pageNames, hls] at hpn
          rw [hpn]
      refine ⟨[], c, min r 50, by simp, fun hrf => ?_, fun hmn => ?_⟩
      · rw [← h, he1] at hrf
        exact absurd hrf (by simp)
      · rcases hls : resp.log_streams with _ | streams
        · simp [pageNames, hls] at hpn
        · refine ⟨resp, streams, hsrc, hls, ?_⟩
          simp [pageNames, hls] at hpn
          rw [hpn, ← he1]
    case none =>
      by_cases hnt : resp.next_token = none
      · simp only [if_pos hnt] at h
        simp at h
      · simp only [if_neg hnt] at h ⊢
        by_cases hrem : r - min r 50 ≤ 0
        · rw [dif_pos hrem] at h
          simp at h
        · rw [dif_neg hrem] at h ⊢
          simp only [] at h
          have ih := error_last_go src resp.next_token (r - min r 50)
            (if k + 1 = 5 then 0 else k + 1) e h
          obtain ⟨pre1, tok, l, htr, hrf, hmn⟩ := ih
          refine ⟨Event.request c (min r 50) ::
            ((if k + 1 = 5 then [Event.sleep] else []) ++ pre1), tok, l,
            ?_, hrf, hmn⟩
          simp only [List.cons_append, List.append_assoc]
          rw [htr]
termination_by r.toNat
decreasing_by
  all_goals
    rcases min_cases r (50 : Int) with ⟨heq, h1⟩ | ⟨heq, h1⟩ <;>
      rw [heq] at hrem ⊢ <;> omega
/-- A source every request to which fails. -/
def alwaysFailSrc : Option Nat → Int → Option DescribeResponse :=
  fun _ _ => none

/-- C1 counterexample: with limit 0 against the canonical one-item source
the fetch issues one page request, not zero — the loop body runs before
any budget check, so a request with cap `min 0 50 = 0` goes out. -/
theorem c1_counterexample :
    ¬ (numRequests (logs_recent_streams (canonicalSrc ["a"]) none 0 0).1 = 0) := by
  simp [logs_recent_streams, canonicalSrc, pageNames, streamNames,
    numRequests, List.countP, List.countP.go, isRequest]

/-- C1 (corrected): for limit 0, the fetch issues exactly one page
request (with a cap of 0 items) and yields an empty sequence, provided
that one response does not itself fail and respects the 0-item cap
(its item list absent or empty). -/
theorem c1_zero_limit (src : Option Nat → Int → Option DescribeResponse)
    (resp : DescribeResponse) (hresp : src none 0 = some resp)
    (hempty : resp.log_streams = none ∨ resp.log_streams = some []) :
    logs_recent_streams src none 0 0 = ([Event.request none 0], [], none) := by
  have h0 : min (0 : Int) 50 = 0 := by omega
  rw [logs_recent_streams, h0]
  simp only [hresp]
  have hpn : pageNames resp = ([], none) := by
    rcases hempty with h | h <;> simp [pageNames, h, streamNames]
  simp only [hpn]
  by_cases hnt : resp.next_token = none
  · simp only [if_pos hnt]
  · simp only [if_neg hnt]
    rw [dif_pos (show (0 : Int) - 0 ≤ 0 by omega)]

/-- Witness for C1: the canonical one-item source at limit 0. -/
theorem c1_zero_limit_witness :
    logs_recent_streams (canonicalSrc ["a"]) none 0 0 =
      ([Event.request none 0], [], none) :=
  c1_zero_limit (canonicalSrc ["a"]) ⟨some [], some 0⟩ (by decide) (Or.inr rfl)

/-- C2 counterexample: a conforming source holding more than 10 items
(every page carries a continuation token) that returns one item per page:
at limit 10 the fetch yields 1 item, not 10, because the budget is
decremented by the requested cap, not by the returned count. -/
theorem c2_counterexample :
    ¬ ((logs_recent_streams shortPageSrc none 10 0).2.1.length = 10) := by
  simp [logs_recent_streams, shortPageSrc, pageNames, streamNames, mkStream]

/-- C2 (corrected): for limit L > 0 against a full-page source holding
more than L items, the fetch yields exactly the first L items, succeeds,
and issues exactly ⌈L / 50⌉ page requests — no further request once the
L-th item is produced. -/
theorem c2_limit_reached (items : List String) (L : Nat) (hL : 0 < L)
    (hmore : L < items.length) :
    (logs_recent_streams (canonicalSrc items) none (L : Int) 0).2.1 =
        items.take L ∧
      (logs_recent_streams (canonicalSrc items) none (L : Int) 0).2.2 = none ∧
      numRequests
        (logs_recent_streams (canonicalSrc items) none (L : Int) 0).1 =
        (L + 49) / 50 := by
  have h := canonical_over_go items L 0 0 none rfl hL (by omega)
  simpa using h

/-- Witness for C2: two items, limit 1. -/
theorem c2_limit_reached_witness :
    (logs_recent_streams (canonicalSrc ["a", "b"]) none ((1 : Nat) : Int)
        0).2.1 = (["a", "b"] : List String).take 1 ∧
      (logs_recent_streams (canonicalSrc ["a", "b"]) none ((1 : Nat) : Int)
        0).2.2 = none ∧
      numRequests (logs_recent_streams (canonicalSrc ["a", "b"]) none
        ((1 : Nat) : Int) 0).1 = (1 + 49) / 50 :=
  c2_limit_reached ["a", "b"] 1 (by decide) (by decide)

/-- C3 counterexample: a conforming source holding 2 items (fewer than
the limit 10) served one per page: the fetch stops after the first page —
whose response still carries a continuation token — and yields 1 item,
not the source total 2, because the first request already consumed the
whole budget. -/
theorem c3_counterexample :
    ¬ ((logs_recent_streams twoItemShortSrc none 10 0).2.1.length = 2) := by
  simp [logs_recent_streams, twoItemShortSrc, pageNames, streamNames, mkStream]

/-- C3 (corrected): for limit L > 0 against a full-page source holding
fewer than L items, the fetch stops at the first page whose response
carries no continuation token and yields every item of the source,
using max 1 ⌈total / 50⌉ page requests. -/
theorem c3_source_exhausted (items : List String) (L : Nat) (hL : 0 < L)
    (hfew : items.length < L) :
    (logs_recent_streams (canonicalSrc items) none (L : Int) 0).2.1 = items ∧
      (logs_recent_streams (canonicalSrc items) none (L : Int) 0).2.2 = none ∧
      numRequests
        (logs_recent_streams (canonicalSrc items) none (L : Int) 0).1 =
        max 1 ((items.length + 49) / 50) := by
  have h := canonical_under_go items L 0 0 none rfl hL (by omega) (by omega)
  simpa using h

/-- Witness for C3: one item, limit 2. -/
theorem c3_source_exhausted_witness :
    (logs_recent_streams (canonicalSrc ["a"]) none ((2 : Nat) : Int)
        0).2.1 = ["a"] ∧
      (logs_recent_streams (canonicalSrc ["a"]) none ((2 : Nat) : Int)
        0).2.2 = none ∧
      numRequests (logs_recent_streams (canonicalSrc ["a"]) none
        ((2 : Nat) : Int) 0).1 = max 1 (((["a"] : List String).length + 49) / 50) :=
  c3_source_exhausted ["a"] 2 (by decide) (by decide)

/-- C4 (confirmed): every run's trace satisfies the rate discipline — at
most 5 page requests between consecutive sleeps (and before the first),
and after every 5th request, if the fetch continues, exactly one sleep
precedes the 6th; `rateOK` itself rejects 6 straight requests and accepts
5 requests, one sleep, then a 6th. -/
theorem c4_rate_discipline :
    (∀ (src : Option Nat → Int → Option DescribeResponse) (r : Int),
        rateOK 5 (logs_recent_streams src none r 0).1 = true) ∧
      rateOK 5 (List.replicate 6 (Event.request none 50)) = false ∧
      rateOK 5 (List.replicate 5 (Event.request none 50) ++
        [Event.sleep, Event.request none 50]) = true := by
  refine ⟨fun src r => ?_, by decide, by decide⟩
  have h := rateOK_go src none r 0 (by omega)
  simpa using h

/-- C5 (confirmed): every page request of a run with initial budget L
asks for at most 50 items and at most the budget still remaining when it
is issued (the initial budget minus the caps consumed by the earlier
requests of the trace). -/
theorem c5_request_cap (src : Option Nat → Int → Option DescribeResponse)
    (L : Nat) (pre post : List Event) (tok : Option Nat) (l : Int)
    (h : (logs_recent_streams src none (L : Int) 0).1 =
      pre ++ Event.request tok l :: post) :
    l ≤ 50 ∧ l ≤ (L : Int) - sumLimits pre := by
  have hc := limit_char_go src none (L : Int) 0 pre tok l post h
  omega

/-- Witness for C5: the single request of a limit-1 fetch asks for 1 item. -/
theorem c5_request_cap_witness :
    (1 : Int) ≤ 50 ∧ (1 : Int) ≤ ((1 : Nat) : Int) - sumLimits [] :=
  c5_request_cap (canonicalSrc ["a", "b"]) 1 [] [] none 1 (by
    have h1 : ((1 : Nat) : Int) = 1 := by norm_num
    rw [h1]
    simp [logs_recent_streams, canonicalSrc, pageNames, streamNames,
      mkStream])

/-- C6 (confirmed): an erroring fetch ends its trace at the failing
request — no request follows the failure — and the failure is the
response: `none` for a transport error, a nameless stream for
`missingName`; concretely, when the second page request fails, or when
the second page holds a nameless stream, exactly two requests are issued,
the error is surfaced, and every first-page item already yielded stays
yielded. -/
theorem c6_error_abort :
    (∀ (src : Option Nat → Int → Option DescribeResponse) (c : Option Nat)
        (r : Int) (k : Nat) (e : FetchErr),
      (logs_recent_streams src c r k).2.2 = some e →
        ∃ pre tok l,
          (logs_recent_streams src c r k).1 = pre ++ [Event.request tok l] ∧
          (e = FetchErr.requestFailed → src tok l = none) ∧
          (e = FetchErr.missingName → ∃ resp streams,
            src tok l = some resp ∧ resp.log_streams = some streams ∧
            (streamNames streams).2 = some FetchErr.missingName)) ∧
      (∀ ns : List String,
        logs_recent_streams (failSecondSrc ns) none 100 0 =
          ([Event.request none 50, Event.request (some 1) 50], ns,
            some FetchErr.requestFailed)) ∧
      (∀ ns : List String,
        logs_recent_streams (badNameSecondSrc ns) none 100 0 =
          ([Event.request none 50, Event.request (some 1) 50], ns,
            some FetchErr.missingName)) := by
  refine ⟨error_last_go, fun ns => ?_, fun ns => ?_⟩
  · simp [logs_recent_streams, failSecondSrc, pageNames,
      streamNames_map_mkStream]
  · simp [logs_recent_streams, badNameSecondSrc, pageNames,
      streamNames_map_mkStream, streamNames]

/-- Witness for C6: the failing first request of the always-failing
source ends the trace. -/
theorem c6_error_abort_witness :
    ∃ pre tok l,
      (logs_recent_streams alwaysFailSrc none 0 0).1 =
        pre ++ [Event.request tok l] ∧
      (FetchErr.requestFailed = FetchErr.requestFailed →
        alwaysFailSrc tok l = none) ∧
      (FetchErr.requestFailed = FetchErr.missingName → ∃ resp streams,
        alwaysFailSrc tok l = some resp ∧ resp.log_streams = some streams ∧
        (streamNames streams).2 = some FetchErr.missingName) :=
  c6_error_abort.1 alwaysFailSrc none 0 0 FetchErr.requestFailed
    (by simp [logs_recent_streams, alwaysFailSrc])

/-- The loop of `for_each` visits every id in order, collects the error
message of every failing action, and reports whether any failed. -/
theorem for_each_go_spec (func : String → Except String Unit)
    (ids : List String) :
    (for_each_go func ids).1 = ids ∧
      ((for_each_go func ids).2.2 = false ↔
        ∀ id ∈ ids, func id = Except.ok ()) ∧
      ((for_each_go func ids).2.1 = [] ↔
        ∀ id ∈ ids, func id = Except.ok ()) := by
  induction ids with
  | nil => simp [for_each_go]
  | cons id rest ih =>
    rcases hf : func id with e | u
    · simp [for_each_go, hf, ih.1]
    · rcases u
      simp [for_each_go, hf, ih.1]
      exact ⟨ih.2.1, ih.2.2⟩

/-- C7 (confirmed): on inputs [a, b, c] where the action fails on b with
message e and succeeds on a and c, `for_each` invokes the action on all
three inputs in order, surfaces exactly the one error e, and reports
aggregate failure. -/
theorem c7_batch_order (func : String → Except String Unit)
    (a b c errB : String) (ha : func a = Except.ok ())
    (hb : func b = Except.error errB) (hc : func c = Except.ok ()) :
    for_each func [a, b, c] =
      ([a, b, c], [errB], some "one or more operations failed") := by
  simp [for_each, for_each_go, ha, hb, hc]

/-- Witness for C7: action failing exactly on "B". -/
theorem c7_batch_order_witness :
    for_each
        (fun s => if s = "B" then Except.error "boom" else Except.ok ())
        ["A", "B", "C"] =
      (["A", "B", "C"], ["boom"], some "one or more operations failed") :=
  c7_batch_order _ "A" "B" "C" "boom" (by simp) (by simp) (by simp)

/-- C8 (confirmed): `for_each` invokes the action on every input, its
aggregate outcome is success exactly when every action succeeded (zero
surfaced errors exactly then too), and on the empty input collection it
invokes zero actions and succeeds. -/
theorem c8_aggregate (func : String → Except String Unit)
    (ids : List String) :
    (for_each func ids).1 = ids ∧
      ((for_each func ids).2.2 = none ↔
        ∀ id ∈ ids, func id = Except.ok ()) ∧
      ((for_each func ids).2.1 = [] ↔
        ∀ id ∈ ids, func id = Except.ok ()) ∧
      for_each func [] = ([], [], none) := by
  have h := for_each_go_spec func ids
  refine ⟨h.1, ?_, ?_, rfl⟩
  · rw [show (for_each func ids).2.2 =
      (if (for_each_go func ids).2.2 then
        some "one or more operations failed" else none) from rfl]
    rcases hb : (for_each_go func ids).2.2 <;>
      simp [hb] at h ⊢
    · exact h.2.1
    · simpa [hb] using h.2.1
  · exact h.2.2

/-- Witness for C8: all actions succeed on ["x", "y"]. -/
theorem c8_aggregate_witness :
    (for_each (fun _ => Except.ok ()) ["x", "y"]).2.2 = none :=
  (c8_aggregate (fun _ => Except.ok ()) ["x", "y"]).2.1.mpr (by simp)

/-- C9 (confirmed): the fetch terminates after finitely many page
requests — at most `remaining.toNat + 1` of them, since every continued
iteration strictly decreases the positive budget. -/
theorem c9_terminates (src : Option Nat → Int → Option DescribeResponse)
    (c : Option Nat) (r : Int) (k : Nat) :
    numRequests (logs_recent_streams src c r k).1 ≤ r.toNat + 1 :=
  numRequests_le_go src c r k

/-- C10 (confirmed): a response whose item-list field is absent is not an
error: the fetch behaves exactly as if the page were empty (normalizing
every absent item list to an explicit empty page changes nothing), and a
first page with no item list and no continuation token yields a
successful empty fetch. -/
theorem c10_absent_items (src : Option Nat → Int → Option DescribeResponse)
    (c : Option Nat) (r : Int) (k : Nat) :
    logs_recent_streams src c r k =
        logs_recent_streams (normalizeSrc src) c r k ∧
      logs_recent_streams (fun _ _ => some ⟨none, none⟩) none 7 0 =
        ([Event.request none 7], [], none) := by
  refine ⟨normalize_eq_go src c r k, ?_⟩
  simp [logs_recent_streams, pageNames]
end Claws
